import Mathlib

/-!
# Verification of the OpenClaw TUI telemetry aggregation engine

Shallow embedding of the pure aggregation logic of `dashboard.py`:
the 5-hour usage window (`get_usage_5h`), the cost rollup (`get_costs`),
the session index (`get_sessions`), the cron loader (`get_crons`) and the
visual quantizer (`make_bar`, `make_sparkline`).

Conventions of the embedding:
* timestamps are milliseconds since the epoch, modelled as `Nat`
  (Python computes `now - ts` in signed arithmetic; every comparison in the
  source is against a nonnegative bound, and `Nat` truncated subtraction
  agrees with the sign conventions of the source at each use site, noted
  where it matters);
* Python floats (costs, percentages, rates) are modelled as `ℚ`;
* JSON dictionaries are association lists in insertion order, mirroring
  Python's insertion-ordered `dict`;
* a raised exception in fallible code is modelled by `Option`/explicit
  failure constructors;
* Python's stable `sorted`/`list.sort` is modelled by `List.insertionSort`,
  which is likewise stable.
-/

/-- Python `int()` on a rational: truncation toward zero. -/
def pyInt (q : ℚ) : ℤ := if q < 0 then ⌈q⌉ else ⌊q⌋

/-- `leadsList n h` is true iff `n` occurs at the start of `h`. -/
def leadsList : List Char → List Char → Bool
  | [], _ => true
  | _ :: _, [] => false
  | a :: n, b :: h => a == b && leadsList n h

/-- `hasSubList n h` : does `n` occur contiguously inside `h`? -/
def hasSubList (n : List Char) : List Char → Bool
  | [] => n.isEmpty
  | c :: t => leadsList n (c :: t) || hasSubList n t

/-- Python's substring test `needle in hay`. -/
def pyIn (needle hay : String) : Bool := hasSubList needle.toList hay.toList

/-- `stripLeads n h` : the remainder of `h` after a leading occurrence of `n`,
`none` if `h` does not start with `n`. -/
def stripLeads : List Char → List Char → Option (List Char)
  | [], hay => some hay
  | _ :: _, [] => none
  | a :: n, b :: h => if a == b then stripLeads n h else none

/-- Fuelled worker for `splitOnL`; the fuel (initially the length of the
haystack) only makes the recursion structural and is never exhausted. -/
def splitFuel (sep : List Char) : Nat → List Char → List Char → List (List Char)
  | 0, hay, acc => [acc.reverse ++ hay]
  | fuel + 1, hay, acc =>
    match hay with
    | [] => [acc.reverse]
    | c :: t =>
      match stripLeads sep (c :: t) with
      | some rest => acc.reverse :: splitFuel sep fuel rest []
      | none => splitFuel sep fuel t (c :: acc)

/-- Python `hay.split(sep)` for a nonempty separator, on char lists. -/
def splitOnL (sep hay : List Char) : List (List Char) :=
  splitFuel sep hay.length hay []

/-- Python `s.split(sep)` (the source only splits on nonempty separators). -/
def pySplit (s sep : String) : List String :=
  (splitOnL sep.toList s.toList).map List.asString

/-- Python `s[:n]` (slicing counts code points, like `List.take` on chars). -/
def pyTake (s : String) (n : Nat) : String := (s.toList.take n).asString

/-- Python `s.lower()`. -/
def pyLower (s : String) : String := (s.toList.map Char.toLower).asString

/-- Code-point lexicographic comparison of char lists: Python's `<=` on
strings. -/
def lexLeCh : List Char → List Char → Bool
  | [], _ => true
  | _ :: _, [] => false
  | a :: as, b :: bs =>
    if a.toNat < b.toNat then true
    else if b.toNat < a.toNat then false
    else lexLeCh as bs

/-- Python `a <= b` on strings. -/
def pyStrLe (a b : String) : Bool := lexLeCh a.toList b.toList

/-- Python sequence indexing `l[i]` with negative indices counting from the
end; out-of-range access raises `IndexError`, modelled as `none`. -/
def pyIndex (l : List Char) (i : ℤ) : Option Char :=
  if 0 ≤ i then l[i.toNat]?
  else if (-i).toNat ≤ l.length then l[(l.length - (-i).toNat)]?
  else none

/-- Python slice `l[-w:]` (for `w = 0` this is `l[0:]`, the whole list). -/
def pySliceLast (l : List ℚ) (w : Nat) : List ℚ :=
  if w = 0 then l else l.drop (l.length - w)

/-- `(m.split('/'))[-1]`: strip any path-like prefix from a model name. -/
def normModel (m : String) : String := (pySplit m "/").getLastD ""

/-- Python `a or d` on an optional string, where `None` and `""` are falsy. -/
def pyOrS (a : Option String) (d : String) : String :=
  match a with
  | some s => if s = "" then d else s
  | none => d

/-- `get_color` (dashboard.py:106): severity banding of a percentage. -/
def get_color (percent : ℚ) : String :=
  if percent < 50 then "green" else if percent < 80 then "yellow" else "red"

/-- The rendered content of `make_bar` (dashboard.py:114): the run of filled
cells, the run of empty cells, and the (unclamped) percent value that the
label `f" {percent:.0f}%"` is formatted from. -/
structure BarText where
  filledCells : List Char
  emptyCells : List Char
  labelPct : ℚ
  deriving DecidableEq

/-- `make_bar` (dashboard.py:114-124).
`filled = int(width * min(percent, 100) / 100)`; `"█" * filled` renders
`max(filled, 0)` cells (Python string repetition clamps negatives to zero);
`empty = width - filled` likewise; the label is formatted from the raw
`percent`, not the clamped value. -/
def make_bar (percent : ℚ) (width : Nat) : BarText :=
  let filled : ℤ := pyInt ((width : ℚ) * min percent 100 / 100)
  let empty : ℤ := (width : ℤ) - filled
  { filledCells := List.replicate filled.toNat '█'
    emptyCells := List.replicate empty.toNat '░'
    labelPct := percent }

/-- The ASCII glyph ramp of `make_sparkline` (dashboard.py:135). -/
def sparkCharsAscii : List Char := ['_', '.', 'o', 'O', '0', '8', '@', '#']

/-- The Unicode block glyph ramp of `make_sparkline` (dashboard.py:137). -/
def sparkCharsUnicode : List Char := ['▁', '▂', '▃', '▄', '▅', '▆', '▇', '█']

/-- `idx = min(int(v * 7.99), 7)` (dashboard.py:152): the glyph level chosen
for a normalized value. -/
def sparkIdx (v : ℚ) : ℤ := min (pyInt (v * (7.99 : ℚ))) 7

/-- `chars[idx]` for one normalized value (dashboard.py:152-153); `none`
models an `IndexError`. -/
def sparkChar (chars : List Char) (v : ℚ) : Option Char := pyIndex chars (sparkIdx v)

/-- The render loop of `make_sparkline` (dashboard.py:150-153): one glyph per
normalized value, aborting (exception) if any indexing fails. -/
def seqChars (chars : List Char) : List ℚ → Option (List Char)
  | [] => some []
  | v :: t =>
    match sparkChar chars v, seqChars chars t with
    | some c, some cs => some (c :: cs)
    | _, _ => none

/-- `make_sparkline` (dashboard.py:127-155), ignoring the rich-text style.
Empty input renders `width` baseline glyphs; otherwise the most recent
`width` values are kept (`values[-width:]`), normalized by
`min(v / max_cap, 1.0)`, padded on the LEFT with zeros up to `width`, and
mapped through the glyph ramp selected by `ascii_mode`. -/
def make_sparkline (values : List ℚ) (width : Nat) (max_cap : ℚ)
    (ascii_mode : Bool) : Option (List Char) :=
  if values = [] then
    some (List.replicate width (if ascii_mode then '_' else '▁'))
  else
    let chars := if ascii_mode then sparkCharsAscii else sparkCharsUnicode
    let recent := pySliceLast values width
    let normalized := recent.map (fun v => min (v / max_cap) 1)
    let padded :=
      if normalized.length < width then
        List.replicate (width - normalized.length) (0 : ℚ) ++ normalized
      else normalized
    seqChars chars padded

/-- The literal level formula stated by the specification for the sparkline
quantizer. Modelled from the spec: "map into one of 8 discrete levels via
`floor(normalized * 7.999)`" — stated here only to be compared against the
source's `sparkIdx`. -/
def sparkIdxSpec (v : ℚ) : ℤ := ⌊v * (7.999 : ℚ)⌋

/-- `usage` of one message record (dashboard.py:228-235): the token and cost
fields read out of `msg['usage']`, with absent fields defaulted to 0 exactly
as `usage.get(..., 0)` does. -/
structure Usage where
  input : Nat
  cacheRead : Nat
  cacheWrite : Nat
  output : Nat
  /-- `usage.get('cost', {}).get('total', 0)` -/
  costTotal : ℚ
  deriving DecidableEq

/-- One successfully JSON-parsed log line (lines whose `json.loads` fails are
skipped by the inner `try` of every reader and therefore never reach the
aggregation logic; the embedding's record lists contain only parsed lines).
`tsRaw` is `d.get('timestamp', '')`; `tsParsed` models
`datetime.fromisoformat(tsRaw.replace('Z', '+00:00')).timestamp() * 1000`
(ISO-8601 parsing is delegated to the Python runtime): `none` when that call
raises, i.e. when the timestamp is unparsable. -/
structure Record where
  type : String
  tsRaw : String
  tsParsed : Option Nat
  /-- `msg.get('model', 'unknown')`, before normalization -/
  model : String
  usage : Usage
  deriving DecidableEq

/-- `five_hours_ms = 5 * 3600 * 1000` (dashboard.py:201). -/
def fiveHoursMs : Nat := 5 * 3600 * 1000

/-- `30 * 60 * 1000`, the burn-rate span (dashboard.py:255). -/
def thirtyMinMs : Nat := 30 * 60 * 1000

/-- Per-model accumulator of the 5-hour window (dashboard.py:237-242). -/
structure ModelAcc where
  input : Nat
  output : Nat
  cost : ℚ
  calls : Nat
  deriving DecidableEq

/-- One burn-rate sample (dashboard.py:248). -/
structure BurnSample where
  ts : Nat
  output : Nat
  cost : ℚ
  deriving DecidableEq

/-- In-flight state of the `get_usage_5h` scan (dashboard.py:203-206). -/
structure Acc5h where
  per_model : List (String × ModelAcc)
  total_cost : ℚ
  total_calls : Nat
  recent : List BurnSample
  deriving DecidableEq

/-- `per_model[model]` update of dashboard.py:237-242 on an insertion-ordered
dict: bump the existing key or append a fresh bucket. -/
def bumpModel (pm : List (String × ModelAcc)) (m : String)
    (inTok outTok : Nat) (c : ℚ) : List (String × ModelAcc) :=
  match pm with
  | [] => [(m, ⟨inTok, outTok, c, 1⟩)]
  | (k, v) :: t =>
    if k = m then
      (k, ⟨v.input + inTok, v.output + outTok, v.cost + c, v.calls + 1⟩) :: t
    else (k, v) :: bumpModel t m inTok outTok c

/-- The body of the per-line loop of `get_usage_5h` (dashboard.py:216-250):
skip non-message records, records with missing (`''`) or unparsable
timestamps, records older than the 5-hour window, and mirror models;
accumulate everything else. In the source `now - ts > five_hours_ms` is a
signed comparison; for `ts > now` it is false there and false here (`Nat`
subtraction yields 0), so the two agree. -/
def step5h (now : Nat) (acc : Acc5h) (r : Record) : Acc5h :=
  if r.type ≠ "message" then acc
  else if r.tsRaw = "" then acc
  else
    match r.tsParsed with
    | none => acc
    | some ts =>
      if fiveHoursMs < now - ts then acc
      else
        let model := normModel r.model
        if pyIn "delivery-mirror" model then acc
        else
          let inTok := r.usage.input + r.usage.cacheRead + r.usage.cacheWrite
          let outTok := r.usage.output
          let cost := r.usage.costTotal
          { per_model := bumpModel acc.per_model model inTok outTok cost
            total_cost := acc.total_cost + cost
            total_calls := acc.total_calls + 1
            recent := acc.recent ++ [⟨ts, outTok, cost⟩] }

/-- `recent_30 = [r for r in recent if r['ts'] >= thirty_min_ago]`
(dashboard.py:255-256). `thirty_min_ago = now - 30*60*1000` may be negative
in Python, in which case every sample passes; `Nat` truncation to 0 gives the
same filter since every `ts` is nonnegative. -/
def recent30 (now : Nat) (recent : List BurnSample) : List BurnSample :=
  recent.filter (fun r => now - thirtyMinMs ≤ r.ts)

/-- `min(r['ts'] for r in recent_30)` (dashboard.py:262); 0 on an empty list
(the source only evaluates it on a nonempty one). -/
def minTs : List BurnSample → Nat
  | [] => 0
  | s :: t => t.foldl (fun m x => min m x.ts) s.ts

/-- `span_ms = max(now - min(...), 60000)` expressed in minutes
(dashboard.py:262-263). A negative Python `now - min` is dominated by the
`max` with 60000 exactly as the `Nat` truncation is. -/
def spanMinutes (now : Nat) (r30 : List BurnSample) : ℚ :=
  ((max (now - minTs r30) 60000 : ℕ) : ℚ) / 60000

/-- `burn_tokens` (dashboard.py:257-263): 0 when no sample is in the last 30
minutes, else total output divided by the elapsed span in minutes. -/
def burnTokens (now : Nat) (r30 : List BurnSample) : ℚ :=
  if r30.isEmpty then 0
  else (((r30.map (fun s => s.output)).sum : ℕ) : ℚ) / spanMinutes now r30

/-- `burn_cost` (dashboard.py:258-264). -/
def burnCost (now : Nat) (r30 : List BurnSample) : ℚ :=
  if r30.isEmpty then 0
  else (r30.map (fun s => s.cost)).sum / spanMinutes now r30

/-- `opus_out` / `sonnet_out` (dashboard.py:269-270): summed output tokens of
the models whose lowercased normalized name contains the family substring. -/
def familyOut (pm : List (String × ModelAcc)) (fam : String) : Nat :=
  ((pm.filter (fun p => pyIn fam (pyLower p.1))).map (fun p => p.2.output)).sum

/-- `opus_limit = 88000` (dashboard.py:267). -/
def opusLimit : Nat := 88000

/-- `sonnet_limit = 220000` (dashboard.py:268). -/
def sonnetLimit : Nat := 220000

/-- `(out / limit * 100) if limit else 0` (dashboard.py:279,281). -/
def pctOf (out limit : Nat) : ℚ :=
  if limit = 0 then 0 else (out : ℚ) / (limit : ℚ) * 100

/-- The dict returned by `get_usage_5h` (dashboard.py:272-282). -/
structure Usage5h where
  per_model : List (String × ModelAcc)
  total_cost : ℚ
  total_calls : Nat
  recent : List BurnSample
  burn_tokens_per_min : ℚ
  burn_cost_per_min : ℚ
  opus_out : Nat
  opus_pct : ℚ
  sonnet_out : Nat
  sonnet_pct : ℚ
  deriving DecidableEq

/-- `get_usage_5h` (dashboard.py:197-282) on the parsed lines of the scanned
log files. (The `f.stat().st_mtime` pre-filter of dashboard.py:211 only skips
whole files not touched within the window — a filesystem-level shortcut with
no per-record content; the embedding receives the lines of the files that are
actually read.) -/
def get_usage_5h (now : Nat) (records : List Record) : Usage5h :=
  let acc := records.foldl (step5h now) ⟨[], 0, 0, []⟩
  let r30 := recent30 now acc.recent
  { per_model := acc.per_model
    total_cost := acc.total_cost
    total_calls := acc.total_calls
    recent := acc.recent
    burn_tokens_per_min := burnTokens now r30
    burn_cost_per_min := burnCost now r30
    opus_out := familyOut acc.per_model "opus"
    opus_pct := pctOf (familyOut acc.per_model "opus") opusLimit
    sonnet_out := familyOut acc.per_model "sonnet"
    sonnet_pct := pctOf (familyOut acc.per_model "sonnet") sonnetLimit }

/-- `d[k] = d.get(k, 0) + c` on an insertion-ordered dict of rationals
(dashboard.py:313-314). -/
def bumpQ (l : List (String × ℚ)) (key : String) (c : ℚ) : List (String × ℚ) :=
  match l with
  | [] => [(key, c)]
  | (k, v) :: t => if k = key then (k, v + c) :: t else (k, v) :: bumpQ t key c

/-- `d.get(k, 0)` on an association list. -/
def lookupQ (l : List (String × ℚ)) (key : String) : ℚ :=
  match l with
  | [] => 0
  | (k, v) :: t => if k = key then v else lookupQ t key

/-- In-flight state of the `get_costs` scan (dashboard.py:290-292). -/
structure CostAcc where
  per_model : List (String × ℚ)
  per_day : List (String × ℚ)
  total : ℚ
  deriving DecidableEq

/-- The body of the per-line loop of `get_costs` (dashboard.py:299-315):
skip non-message records, records with `cost <= 0`, and mirror models;
bucket the rest by normalized model and by `d.get('timestamp', '')[:10]`
(the literal first 10 characters — no parsing, no timezone conversion),
and add to the running all-time total. -/
def stepCost (acc : CostAcc) (r : Record) : CostAcc :=
  if r.type ≠ "message" then acc
  else if r.usage.costTotal ≤ 0 then acc
  else
    let model := normModel r.model
    if pyIn "delivery-mirror" model then acc
    else
      let day := pyTake r.tsRaw 10
      { per_model := bumpQ acc.per_model model r.usage.costTotal
        per_day := bumpQ acc.per_day day r.usage.costTotal
        total := acc.total + r.usage.costTotal }

/-- The full (untruncated) rollup accumulated by `get_costs`
(dashboard.py:294-319) before the return-value truncation. -/
def costAccOf (records : List Record) : CostAcc :=
  records.foldl stepCost ⟨[], [], 0⟩

/-- A record qualifies for the cost rollup iff it is a message record with
strictly positive cost and a non-mirror model — the guard conditions of
dashboard.py:301-310. -/
def qualCost (r : Record) : Bool :=
  r.type == "message" && decide (0 < r.usage.costTotal)
    && !(pyIn "delivery-mirror" (normModel r.model))

/-- Descending order on day keys: `sorted(per_day.items(), reverse=True)`
(dashboard.py:330). The keys of a dict are distinct, so sorting the pairs in
reverse (code-point) lexicographic order is sorting by key, descending. -/
def dayDesc (a b : String × ℚ) : Prop := pyStrLe b.1 a.1 = true

/-- Descending order on cost: `sorted(per_model.items(), key=lambda x: -x[1])`
(dashboard.py:329). -/
def costDesc (a b : String × ℚ) : Prop := b.2 ≤ a.2

instance : DecidableRel dayDesc :=
  fun a b => inferInstanceAs (Decidable (pyStrLe b.1 a.1 = true))

instance : DecidableRel costDesc := fun a b => inferInstanceAs (Decidable (b.2 ≤ a.2))

/-- The dict returned by `get_costs` (dashboard.py:325-331). -/
structure Costs where
  total : ℚ
  today : ℚ
  week : ℚ
  per_model : List (String × ℚ)
  per_day : List (String × ℚ)
  deriving DecidableEq

/-- `get_costs` (dashboard.py:287-333) on the parsed lines of all log files.
`todayStr` and `weekAgoStr` model `datetime.now().strftime('%Y-%m-%d')` and
the same for `now - 7 days` (dashboard.py:321-322). Python's stable `sorted`
is modelled by the stable `List.insertionSort`; `per_day` keys are distinct,
so sorting the pairs reverse-lexicographically coincides with `dayDesc`. -/
def get_costs (records : List Record) (todayStr weekAgoStr : String) : Costs :=
  let acc := costAccOf records
  { total := acc.total
    today := lookupQ acc.per_day todayStr
    week := ((acc.per_day.filter (fun p => pyStrLe weekAgoStr p.1)).map (fun p => p.2)).sum
    per_model := (List.insertionSort costDesc acc.per_model).take 5
    per_day := (List.insertionSort dayDesc acc.per_day).take 7 }

/-- One value of the session snapshot dict (dashboard.py:170-189): the fields
`get_sessions` reads, each `none` when absent. -/
structure SessIn where
  label : Option String
  model : Option String
  modelOverride : Option String
  totalTokens : Option Nat
  contextTokens : Option Nat
  updatedAt : Option Nat
  channel : Option String
  sessionId : Option String
  deriving DecidableEq

/-- A `SessIn` with every field absent. -/
def emptySessIn : SessIn :=
  ⟨none, none, none, none, none, none, none, none⟩

/-- One entry of the list returned by `get_sessions`
(dashboard.py:181-190). -/
structure SessionEntry where
  key : String
  label : String
  model : String
  tokens : Nat
  context : Nat
  updated : Nat
  channel : String
  sessionId : String
  deriving DecidableEq

/-- The friendly-name resolution of `get_sessions` (dashboard.py:171-179). -/
def resolveLabel (key : String) (s : SessIn) : String :=
  if pyIn ":main:main" key then "main"
  else if pyIn "cron:" key then
    s.label.getD ("cron-" ++ pyTake ((pySplit key "cron:").getD 1 "") 8)
  else if pyIn "subagent" key then
    "sub-" ++ pyTake ((pySplit key ":").getLastD "") 8
  else s.label.getD (pyTake ((pySplit key ":").getLastD "") 12)

/-- One loop iteration of `get_sessions` (dashboard.py:170-190): the entry
appended for dict item `(key, s)`. -/
def mkEntry (key : String) (s : SessIn) : SessionEntry :=
  { key := key
    label := resolveLabel key s
    model := (pySplit (pyOrS s.modelOverride (pyOrS s.model "-")) "/").getLastD ""
    tokens := s.totalTokens.getD 0
    context := s.contextTokens.getD 0
    updated := s.updatedAt.getD 0
    channel := s.channel.getD "-"
    sessionId := s.sessionId.getD key }

/-- Descending order on `updatedAt`:
`sessions.sort(key=lambda x: x['updated'], reverse=True)`
(dashboard.py:191). -/
def updDesc (a b : SessionEntry) : Prop := b.updated ≤ a.updated

instance : DecidableRel updDesc :=
  fun a b => inferInstanceAs (Decidable (b.updated ≤ a.updated))

instance : IsTotal SessionEntry updDesc := ⟨fun a b => le_total b.updated a.updated⟩

instance : IsTrans SessionEntry updDesc := ⟨fun _ _ _ h1 h2 => le_trans h2 h1⟩

/-- The loop-and-sort core of `get_sessions` (dashboard.py:169-192): one
entry per snapshot item, in stable descending `updatedAt` order. Python's
stable `list.sort` is modelled by the stable `List.insertionSort`. -/
def get_sessions_core (data : List (String × SessIn)) : List SessionEntry :=
  List.insertionSort updDesc (data.map (fun p => mkEntry p.1 p.2))

/-- Outcome of reading-and-JSON-parsing a snapshot file. `missing` is the
explicit `exists()` check; `unreadable` a raised read error; `malformed` a
`json.loads` failure, which is also what an empty file produces. -/
inductive FileRead (α : Type) where
  | missing : FileRead α
  | unreadable : FileRead α
  | malformed : FileRead α
  | parsed : α → FileRead α
  deriving DecidableEq

/-- `get_sessions` (dashboard.py:162-194): the `try`/`except` returns `[]`
on a missing file and on every read/parse failure. -/
def get_sessions (f : FileRead (List (String × SessIn))) : List SessionEntry :=
  match f with
  | .missing => []
  | .unreadable => []
  | .malformed => []
  | .parsed data => get_sessions_core data

/-- The fields `get_crons` reads from one entry of `data['jobs']`
(dashboard.py:343-352), each `none` when absent. -/
structure CronJobIn where
  id : Option String
  name : Option String
  scheduleExpr : Option String
  scheduleEvery : Option String
  enabled : Option Bool
  lastRunAtMs : Option Nat
  lastStatus : Option String
  deriving DecidableEq

/-- One entry of the list returned by `get_crons` (dashboard.py:346-353). -/
structure CronJob where
  id : String
  name : String
  schedule : String
  enabled : Bool
  last_run : Nat
  last_status : String
  deriving DecidableEq

/-- One loop iteration of `get_crons` (dashboard.py:343-353). -/
def mkCron (j : CronJobIn) : CronJob :=
  { id := pyTake (j.id.getD "") 8
    name := j.name.getD (pyTake (j.id.getD "") 8)
    schedule := j.scheduleExpr.getD (j.scheduleEvery.getD "?")
    enabled := j.enabled.getD true
    last_run := j.lastRunAtMs.getD 0
    last_status := j.lastStatus.getD "unknown" }

/-- `get_crons` (dashboard.py:336-356): `[]` on a missing file and on every
read/parse failure; on success, one job per entry of `data.get('jobs', [])`
(an absent `jobs` key is the parsed payload `[]`). -/
def get_crons (f : FileRead (List CronJobIn)) : List CronJob :=
  match f with
  | .missing => []
  | .unreadable => []
  | .malformed => []
  | .parsed jobs => jobs.map mkCron

/-- `UsagePanel.refresh_stats` (dashboard.py:516-526), as the evolution of
the panel's displayed value: `set_interval(2, self.refresh_stats)` runs it on
every 2-second tick, and `render_stats` calls `get_usage_5h()`
unconditionally — the previously displayed value `prev` is never consulted
and no `lastRefreshedAt`/TTL state exists anywhere in the class. -/
def UsagePanel.refresh_stats (_prev : Usage5h) (now : Nat)
    (records : List Record) : Usage5h :=
  get_usage_5h now records

/-- A concrete well-formed message record: parsed timestamp 500 ms, 5 output
tokens, cost $0.01. -/
def msgRecEx : Record :=
  { type := "message"
    tsRaw := "1970-01-01T00:00:00.500Z"
    tsParsed := some 500
    model := "anthropic/claude-opus-4"
    usage := ⟨1, 0, 0, 5, 1 / 100⟩ }

/-- A concrete message record with parsed timestamp 29000 ms. -/
def msgRecLate : Record :=
  { type := "message"
    tsRaw := "1970-01-01T00:00:29Z"
    tsParsed := some 29000
    model := "m"
    usage := ⟨0, 0, 0, 3, 1⟩ }

/-- A cost-positive message record on calendar day `day` (cost 1). -/
def costRec (day : String) : Record :=
  { type := "message"
    tsRaw := day ++ "T00:00:00Z"
    tsParsed := some 0
    model := "m"
    usage := ⟨0, 0, 0, 0, 1⟩ }

/-- A message record whose cost is 0 (excluded from the cost rollup). -/
def zeroCostRec : Record :=
  { type := "message"
    tsRaw := "2024-01-01T00:00:00Z"
    tsParsed := some 0
    model := "m"
    usage := ⟨0, 0, 0, 0, 0⟩ }

/-- A log set of 8 cost-positive records on 8 distinct calendar days. -/
def costRecords8 : List Record :=
  ["2024-01-01", "2024-01-02", "2024-01-03", "2024-01-04",
   "2024-01-05", "2024-01-06", "2024-01-07", "2024-01-08"].map costRec

/-- A session snapshot whose two distinct keys both resolve to the label
`"main"`, with `updatedAt` 100 and 200. -/
def sessSnapshotEx : List (String × SessIn) :=
  [("alpha:main:main", { emptySessIn with updatedAt := some 100 }),
   ("beta:main:main", { emptySessIn with updatedAt := some 200 })]

/-! ## Helper lemmas -/

theorem lexLeCh_total : ∀ x y : List Char, lexLeCh x y = true ∨ lexLeCh y x = true := by
  intro x
  induction x with
  | nil => intro y; left; rfl
  | cons a as ih =>
    intro y
    cases y with
    | nil => right; rfl
    | cons b bs =>
      by_cases h1 : a.toNat < b.toNat
      · left; simp [lexLeCh, h1]
      · by_cases h2 : b.toNat < a.toNat
        · right; simp [lexLeCh, h2]
        · rcases ih bs with h | h
          · left; simp [lexLeCh, h1, h2, h]
          · right; simp [lexLeCh, h1, h2, h]

theorem lexLeCh_trans :
    ∀ x y z : List Char, lexLeCh x y = true → lexLeCh y z = true →
      lexLeCh x z = true := by
  intro x
  induction x with
  | nil => intro y z _ _; rfl
  | cons a as ih =>
    intro y z hxy hyz
    cases y with
    | nil => simp [lexLeCh] at hxy
    | cons b bs =>
      cases z with
      | nil => simp [lexLeCh] at hyz
      | cons c cs =>
        simp only [lexLeCh] at hxy hyz ⊢
        split_ifs at hxy hyz ⊢ <;>
          first
          | rfl
          | omega
          | exact ih bs cs hxy hyz

theorem nat_sum_pos_iff (l : List ℕ) : 0 < l.sum ↔ ∃ x ∈ l, 0 < x := by
  induction l with
  | nil => simp
  | cons a t ih =>
    simp only [List.sum_cons, List.mem_cons]
    constructor
    · intro h
      by_cases ha : 0 < a
      · exact ⟨a, Or.inl rfl, ha⟩
      · have ht : 0 < t.sum := by omega
        obtain ⟨x, hx, hpos⟩ := ih.mp ht
        exact ⟨x, Or.inr hx, hpos⟩
    · rintro ⟨x, hx | hx, hpos⟩
      · subst hx; omega
      · have := ih.mpr ⟨x, hx, hpos⟩; omega

theorem sumVals_bumpQ (l : List (String × ℚ)) (k : String) (c : ℚ) :
    ((bumpQ l k c).map (fun p => p.2)).sum = (l.map (fun p => p.2)).sum + c := by
  induction l with
  | nil => simp [bumpQ]
  | cons p t ih =>
    obtain ⟨k0, v⟩ := p
    by_cases h : k0 = k
    · simp [bumpQ, h]; ring
    · simp [bumpQ, h, ih]; ring

theorem stepCost_invariant (acc : CostAcc) (r : Record) :
    ((stepCost acc r).per_day.map (fun p => p.2)).sum - (stepCost acc r).total =
      (acc.per_day.map (fun p => p.2)).sum - acc.total := by
  simp only [stepCost]
  split_ifs <;> simp [sumVals_bumpQ]

theorem costAcc_day_total (records : List Record) :
    ∀ acc : CostAcc,
      ((records.foldl stepCost acc).per_day.map (fun p => p.2)).sum
          - (records.foldl stepCost acc).total
        = (acc.per_day.map (fun p => p.2)).sum - acc.total := by
  induction records with
  | nil => intro acc; rfl
  | cons r t ih => intro acc; rw [List.foldl_cons, ih, stepCost_invariant]

theorem stepCost_total_eq (acc : CostAcc) (r : Record) :
    (stepCost acc r).total
      = acc.total + (if qualCost r then r.usage.costTotal else 0) := by
  by_cases h1 : r.type = "message"
  · by_cases h2 : r.usage.costTotal ≤ 0
    · have hq : qualCost r = false := by
        simp [qualCost, not_lt.mpr h2]
      simp [stepCost, h1, h2, hq]
    · by_cases h3 : pyIn "delivery-mirror" (normModel r.model) = true
      · have hq : qualCost r = false := by simp [qualCost, h3]
        simp [stepCost, h1, h2, h3, hq]
      · have hq : qualCost r = true := by
          simp [qualCost, h1, h3, not_le.mp h2]
        simp [stepCost, h1, h2, h3, hq]
  · have hq : qualCost r = false := by simp [qualCost, h1]
    simp [stepCost, h1, hq]

theorem costAcc_total (records : List Record) :
    ∀ acc : CostAcc,
      (records.foldl stepCost acc).total
        = acc.total + ((records.filter qualCost).map (fun r => r.usage.costTotal)).sum := by
  induction records with
  | nil => intro acc; simp
  | cons r t ih =>
    intro acc
    rw [List.foldl_cons, ih]
    by_cases h : qualCost r
    · simp [List.filter_cons, h, stepCost_total_eq]; ring
    · simp [List.filter_cons, h, stepCost_total_eq]

theorem insertionSort_take_le {α : Type} {r : α → α → Prop} [DecidableRel r]
    (total : ∀ a b, r a b ∨ r b a) (htrans : ∀ a b c, r a b → r b c → r a c)
    (l : List α) (n : Nat) :
    ∀ p ∈ l, p ∉ (List.insertionSort r l).take n →
      ∀ q ∈ (List.insertionSort r l).take n, r q p := by
  intro p hp hnp q hq
  haveI : IsTotal α r := ⟨total⟩
  haveI : IsTrans α r := ⟨htrans⟩
  have hsorted : List.Sorted r (List.insertionSort r l) :=
    List.sorted_insertionSort r l
  have hpS : p ∈ List.insertionSort r l := by
    rw [List.mem_insertionSort]; exact hp
  have hsplit := List.take_append_drop n (List.insertionSort r l)
  have hpd : p ∈ (List.insertionSort r l).drop n := by
    rcases List.mem_append.mp (by rw [hsplit]; exact hpS) with h | h
    · exact absurd h hnp
    · exact h
  have hpair :
      List.Pairwise r
        ((List.insertionSort r l).take n ++ (List.insertionSort r l).drop n) := by
    rw [hsplit]; exact hsorted
  exact (List.pairwise_append.mp hpair).2.2 q hq p hpd

theorem sorted_insertionSort_of (α : Type) (r : α → α → Prop) [DecidableRel r]
    (total : ∀ a b, r a b ∨ r b a) (htrans : ∀ a b c, r a b → r b c → r a c)
    (l : List α) : List.Sorted r (List.insertionSort r l) := by
  haveI : IsTotal α r := ⟨total⟩
  haveI : IsTrans α r := ⟨htrans⟩
  exact List.sorted_insertionSort r l

theorem dayDesc_total : ∀ a b : String × ℚ, dayDesc a b ∨ dayDesc b a := by
  intro a b
  rcases lexLeCh_total b.1.toList a.1.toList with h | h
  · exact Or.inl h
  · exact Or.inr h

theorem dayDesc_trans : ∀ a b c : String × ℚ, dayDesc a b → dayDesc b c → dayDesc a c := by
  intro a b c h1 h2
  exact lexLeCh_trans c.1.toList b.1.toList a.1.toList h2 h1

theorem costDesc_total : ∀ a b : String × ℚ, costDesc a b ∨ costDesc b a := by
  intro a b; exact le_total b.2 a.2

theorem costDesc_trans : ∀ a b c : String × ℚ, costDesc a b → costDesc b c → costDesc a c := by
  intro a b c h1 h2; exact le_trans h2 h1

theorem updDesc_total : ∀ a b : SessionEntry, updDesc a b ∨ updDesc b a := by
  intro a b; exact le_total b.updated a.updated

theorem updDesc_trans : ∀ a b c : SessionEntry, updDesc a b → updDesc b c → updDesc a c := by
  intro a b c h1 h2; exact le_trans h2 h1

theorem step5h_skip (now : Nat) (acc : Acc5h) (r : Record)
    (h : r.tsRaw = "" ∨ r.tsParsed = none) : step5h now acc r = acc := by
  rcases h with h | h
  · by_cases ht : r.type ≠ "message" <;> simp [step5h, ht, h]
  · by_cases ht : r.type ≠ "message"
    · simp [step5h, ht]
    · by_cases hr : r.tsRaw = "" <;> simp [step5h, ht, hr, h]

theorem step5h_recent_mem (now : Nat) (acc : Acc5h) (r : Record) :
    ∀ s ∈ (step5h now acc r).recent, s ∈ acc.recent ∨ now - s.ts ≤ fiveHoursMs := by
  intro s hs
  by_cases h1 : r.type ≠ "message"
  · simp only [step5h, if_pos h1] at hs; exact Or.inl hs
  · by_cases h2 : r.tsRaw = ""
    · simp only [step5h, if_neg h1, if_pos h2] at hs; exact Or.inl hs
    · cases hts : r.tsParsed with
      | none =>
        rw [step5h_skip now acc r (Or.inr hts)] at hs; exact Or.inl hs
      | some ts =>
        by_cases h3 : fiveHoursMs < now - ts
        · simp only [step5h, if_neg h1, if_neg h2, hts, if_pos h3] at hs
          exact Or.inl hs
        · by_cases h4 : pyIn "delivery-mirror" (normModel r.model) = true
          · simp only [step5h, if_neg h1, if_neg h2, hts, if_neg h3, if_pos h4] at hs
            exact Or.inl hs
          · simp only [step5h, if_neg h1, if_neg h2, hts, if_neg h3,
              if_neg h4] at hs
            rcases List.mem_append.mp hs with h | h
            · exact Or.inl h
            · right
              have hse : s = ⟨ts, r.usage.output, r.usage.costTotal⟩ := by
                simpa using h
              rw [hse]
              show now - ts ≤ fiveHoursMs
              omega

theorem foldl5h_recent_window (now : Nat) (rs : List Record) :
    ∀ acc : Acc5h, (∀ s ∈ acc.recent, now - s.ts ≤ fiveHoursMs) →
      ∀ s ∈ (rs.foldl (step5h now) acc).recent, now - s.ts ≤ fiveHoursMs := by
  induction rs with
  | nil => intro acc h; exact h
  | cons r t ih =>
    intro acc h
    rw [List.foldl_cons]
    refine ih _ ?_
    intro s hs
    rcases step5h_recent_mem now acc r s hs with h' | h'
    · exact h s h'
    · exact h'

theorem step5h_calls_iff (now : Nat) (acc : Acc5h) (r : Record)
    (htype : r.type = "message")
    (hmir : pyIn "delivery-mirror" (normModel r.model) = false) :
    (step5h now acc r).total_calls = acc.total_calls + 1 ↔
      r.tsRaw ≠ "" ∧ ∃ ts, r.tsParsed = some ts ∧ now - ts ≤ fiveHoursMs := by
  constructor
  · intro h
    by_cases h2 : r.tsRaw = ""
    · rw [step5h_skip now acc r (Or.inl h2)] at h; omega
    · cases hts : r.tsParsed with
      | none => rw [step5h_skip now acc r (Or.inr hts)] at h; omega
      | some ts =>
        refine ⟨h2, ts, rfl, ?_⟩
        by_cases h3 : fiveHoursMs < now - ts
        · exfalso
          have hstep : step5h now acc r = acc := by
            simp only [step5h, hts]
            simp [htype, h2, h3]
          rw [hstep] at h; omega
        · omega
  · rintro ⟨h2, ts, hts, hwin⟩
    have h3 : ¬ fiveHoursMs < now - ts := by omega
    simp only [step5h, hts]
    simp [htype, h2, h3, hmir]

theorem spanMinutes_pos (now : Nat) (r30 : List BurnSample) :
    0 < spanMinutes now r30 := by
  unfold spanMinutes
  apply div_pos
  · exact_mod_cast Nat.lt_of_lt_of_le (by norm_num) (Nat.le_max_right _ 60000)
  · norm_num

theorem burnTokens_pos_iff (now : Nat) (r30 : List BurnSample) :
    0 < burnTokens now r30 ↔ ∃ s ∈ r30, 0 < s.output := by
  cases r30 with
  | nil => simp [burnTokens]
  | cons a t =>
    rw [burnTokens, if_neg (by simp)]
    constructor
    · intro h
      rcases div_pos_iff.mp h with ⟨hnum, _⟩ | ⟨_, hden⟩
      · rw [Nat.cast_pos] at hnum
        obtain ⟨x, hx, hp⟩ := (nat_sum_pos_iff _).mp hnum
        obtain ⟨s, hs, rfl⟩ := List.mem_map.mp hx
        exact ⟨s, hs, hp⟩
      · exact absurd hden (not_lt.mpr (le_of_lt (spanMinutes_pos _ _)))
    · rintro ⟨s, hs, hp⟩
      apply div_pos
      · rw [Nat.cast_pos]
        exact (nat_sum_pos_iff _).mpr ⟨s.output, List.mem_map.mpr ⟨s, hs, rfl⟩, hp⟩
      · exact spanMinutes_pos now (a :: t)

theorem burnTokens_formula (now : Nat) (r30 : List BurnSample) (h : r30 ≠ []) :
    burnTokens now r30 =
      ((r30.map (fun s => (s.output : ℚ))).sum) /
        (((max (now - minTs r30) 60000 : ℕ) : ℚ) / 60000) := by
  rw [burnTokens, if_neg (by simpa using h), spanMinutes]
  congr 1
  rw [Nat.cast_list_sum, List.map_map]
  rfl

/-! ## Claim theorems -/

/-- **C1**: every burn-rate sample retained by `get_usage_5h` — exactly the
records admitted to the 5-hour window accumulators — satisfies
`now - ts ≤ 5h`; a record whose timestamp is missing (`''`) or unparsable
leaves the whole accumulator state unchanged (absent from all windows, never
defaulted to `now`); and a message record with a valid (non-mirror) model is
counted iff its timestamp is present, parses, and lies within the window —
so such a record is excluded solely for a missing/unparsable timestamp. -/
theorem usage5h_window_sound (now : Nat) (records : List Record) :
    (∀ s ∈ (get_usage_5h now records).recent, now - s.ts ≤ fiveHoursMs)
    ∧ (∀ (acc : Acc5h) (r : Record), r.tsRaw = "" ∨ r.tsParsed = none →
        step5h now acc r = acc)
    ∧ (∀ (acc : Acc5h) (r : Record), r.type = "message" →
        pyIn "delivery-mirror" (normModel r.model) = false →
        ((step5h now acc r).total_calls = acc.total_calls + 1 ↔
          r.tsRaw ≠ "" ∧ ∃ ts, r.tsParsed = some ts ∧ now - ts ≤ fiveHoursMs)) := by
  refine ⟨?_, ?_, ?_⟩
  · intro s hs
    exact foldl5h_recent_window now records ⟨[], 0, 0, []⟩ (by simp) s hs
  · exact fun acc r h => step5h_skip now acc r h
  · exact fun acc r h1 h2 => step5h_calls_iff now acc r h1 h2

/-- Witness for C1: a concrete in-window message record is counted. -/
theorem usage5h_window_sound_witness :
    (step5h 1000 ⟨[], 0, 0, []⟩ msgRecEx).total_calls = 0 + 1 := by
  have h := (usage5h_window_sound 1000 [msgRecEx]).2.2 ⟨[], 0, 0, []⟩ msgRecEx
    (by decide) (by decide)
  exact h.mpr ⟨by decide, 500, rfl, by decide⟩

/-- **C2**: the burn rate is 0 whenever no sample is in the last 30 minutes;
it is strictly positive iff some qualifying sample in that span has positive
output tokens; and on a nonempty span it equals the summed output divided by
`max(now - earliest, 60s)` expressed in minutes. -/
theorem burn_rate_characterization (now : Nat) (records : List Record) :
    (recent30 now (get_usage_5h now records).recent = [] →
        (get_usage_5h now records).burn_tokens_per_min = 0)
    ∧ (0 < (get_usage_5h now records).burn_tokens_per_min ↔
        ∃ s ∈ recent30 now (get_usage_5h now records).recent, 0 < s.output)
    ∧ (recent30 now (get_usage_5h now records).recent ≠ [] →
        (get_usage_5h now records).burn_tokens_per_min =
          (((recent30 now (get_usage_5h now records).recent).map
              (fun s => (s.output : ℚ))).sum) /
            (((max (now - minTs (recent30 now (get_usage_5h now records).recent))
                60000 : ℕ) : ℚ) / 60000)) := by
  have hfield : (get_usage_5h now records).burn_tokens_per_min
      = burnTokens now (recent30 now (get_usage_5h now records).recent) := rfl
  refine ⟨?_, ?_, ?_⟩
  · intro h; rw [hfield, h]; simp [burnTokens]
  · rw [hfield]; exact burnTokens_pos_iff now _
  · intro h; rw [hfield]; exact burnTokens_formula now _ h

/-- Witness for C2: a concrete record with positive output yields a positive
burn rate, and an empty log yields burn rate 0. -/
theorem burn_rate_characterization_witness :
    0 < (get_usage_5h 0 [msgRecEx]).burn_tokens_per_min
    ∧ (get_usage_5h 1 []).burn_tokens_per_min = 0 := by
  constructor
  · have hr : recent30 0 (get_usage_5h 0 [msgRecEx]).recent
        = [⟨500, 5, 1 / 100⟩] := by
      with_unfolding_all rfl
    refine (burn_rate_characterization 0 [msgRecEx]).2.1.mpr
      ⟨⟨500, 5, 1 / 100⟩, ?_, by decide⟩
    rw [hr]
    exact List.mem_singleton_self _
  · exact (burn_rate_characterization 1 []).1 (by with_unfolding_all rfl)

/-- **C4** (counterexample): `get_sessions` performs no deduplication — on a
snapshot with two keys both resolving to the label `"main"` and `updatedAt`
100 and 200, both entries appear in the output (200 first), refuting the
claim that only the entry with 200 survives. -/
theorem sessions_dedup_counterexample :
    (get_sessions (.parsed sessSnapshotEx)).map (fun e => (e.label, e.updated))
      = [("main", 200), ("main", 100)] := by
  with_unfolding_all rfl

/-- **C4** (amended): after label resolution `get_sessions` keeps every
entry — one output entry per snapshot item, the multiset of entries is
exactly the resolved entries, and the list is ordered by `updatedAt`
descending; entries sharing a label are all retained. -/
theorem sessions_no_dedup (data : List (String × SessIn)) :
    (get_sessions (.parsed data)).length = data.length
    ∧ List.Sorted updDesc (get_sessions (.parsed data))
    ∧ List.Perm (get_sessions (.parsed data)) (data.map (fun p => mkEntry p.1 p.2)) := by
  refine ⟨?_, ?_, ?_⟩
  · show (List.insertionSort updDesc _).length = _
    rw [List.length_insertionSort, List.length_map]
  · exact sorted_insertionSort_of _ updDesc updDesc_total updDesc_trans _
  · exact List.perm_insertionSort updDesc _

/-- **C6** (counterexample): for `percent = -5`, `width = 30` the bar renders
0 filled cells but 31 empty cells (`width - int(-1.5) = 31`), not the
`width - 0 = 30` remaining cells the claim implies. -/
theorem bar_negative_counterexample :
    (make_bar (-5) 30).filledCells.length = 0
    ∧ (make_bar (-5) 30).emptyCells.length = 31 := by
  with_unfolding_all (exact ⟨rfl, rfl⟩)

/-- **C6** (amended): the label always carries the unclamped percent; for
`percent ≥ 0` the filled-cell count is `⌊width * min(percent, 100) / 100⌋`
and exactly the remaining `width - filled` cells are empty; for negative
`percent` the filled count is 0 but the empty-cell count is
`width - int(width * percent / 100)`, which exceeds `width`. -/
theorem bar_cells_and_label (percent : ℚ) (width : Nat) :
    (make_bar percent width).labelPct = percent
    ∧ (0 ≤ percent →
        (make_bar percent width).filledCells.length
            = (⌊(width : ℚ) * min percent 100 / 100⌋).toNat
          ∧ (make_bar percent width).emptyCells.length
            = width - (make_bar percent width).filledCells.length)
    ∧ (percent < 0 →
        (make_bar percent width).filledCells.length = 0
          ∧ ((make_bar percent width).emptyCells.length : ℤ)
            = (width : ℤ) - pyInt ((width : ℚ) * min percent 100 / 100)) := by
  refine ⟨rfl, ?_, ?_⟩
  · intro hp
    have hq0 : 0 ≤ (width : ℚ) * min percent 100 / 100 := by
      apply div_nonneg _ (by norm_num)
      exact mul_nonneg (by positivity) (le_min hp (by norm_num))
    have hpy : pyInt ((width : ℚ) * min percent 100 / 100)
        = ⌊(width : ℚ) * min percent 100 / 100⌋ := by
      rw [pyInt, if_neg (not_lt.mpr hq0)]
    have hle : (width : ℚ) * min percent 100 / 100 ≤ (width : ℚ) := by
      rw [div_le_iff₀ (by norm_num : (0:ℚ) < 100)]
      exact mul_le_mul_of_nonneg_left (min_le_right percent 100) (by positivity)
    have hfl : ⌊(width : ℚ) * min percent 100 / 100⌋ ≤ (width : ℤ) := by
      calc ⌊(width : ℚ) * min percent 100 / 100⌋ ≤ ⌊(width : ℚ)⌋ :=
            Int.floor_le_floor hle
        _ = (width : ℤ) := Int.floor_natCast width
    have hf0 : 0 ≤ ⌊(width : ℚ) * min percent 100 / 100⌋ := Int.floor_nonneg.mpr hq0
    constructor
    · simp [make_bar, hpy]
    · simp only [make_bar, List.length_replicate, hpy]
      omega
  · intro hp
    have hm0 : (width : ℚ) * min percent 100 ≤ 0 :=
      mul_nonpos_iff.mpr (Or.inl ⟨by positivity, le_trans (min_le_left _ _) hp.le⟩)
    have hq0 : (width : ℚ) * min percent 100 / 100 ≤ 0 :=
      div_nonpos_iff.mpr (Or.inr ⟨hm0, by norm_num⟩)
    have hpy0 : pyInt ((width : ℚ) * min percent 100 / 100) ≤ 0 := by
      rw [pyInt]; split_ifs
      · exact Int.ceil_le.mpr (by exact_mod_cast hq0)
      · exact Int.floor_nonpos hq0
    constructor
    · simp only [make_bar, List.length_replicate]
      omega
    · simp only [make_bar, List.length_replicate]
      omega

/-- Witness for C6: at the claim's sample points 137 and -5 (width 30). -/
theorem bar_cells_and_label_witness :
    (make_bar 137 30).filledCells.length
        = (⌊(30 : ℚ) * min (137 : ℚ) 100 / 100⌋).toNat
    ∧ (make_bar (-5) 30).filledCells.length = 0 := by
  constructor
  · exact ((bar_cells_and_label 137 30).2.1 (by norm_num)).1
  · exact ((bar_cells_and_label (-5) 30).2.2 (by norm_num)).1

/-- **C8** (counterexample): `UsagePanel` has no TTL cache — a panel showing
the value computed at `t = 0` and ticked again at `t = 29s` (inside the
claimed 30 s TTL) recomputes from the current logs: with a fresh record
present the displayed call count changes from 0 to 1 instead of returning
the `t = 0` value unchanged. -/
theorem cache_ttl_counterexample :
    (UsagePanel.refresh_stats (get_usage_5h 0 []) 29000 [msgRecLate]).total_calls = 1
    ∧ (get_usage_5h 0 []).total_calls = 0 := by
  with_unfolding_all (exact ⟨rfl, rfl⟩)

/-- **C8** (amended): every 2-second tick of `UsagePanel.refresh_stats`
recomputes `get_usage_5h` unconditionally; the result never depends on the
previously displayed value, and no staleness check exists. -/
theorem cache_refresh_unconditional (prev prev2 : Usage5h) (now : Nat)
    (records : List Record) :
    UsagePanel.refresh_stats prev now records = get_usage_5h now records
    ∧ UsagePanel.refresh_stats prev now records
        = UsagePanel.refresh_stats prev2 now records :=
  ⟨rfl, rfl⟩

/-- **C9**: the loaders return empty defaults, never errors: `get_sessions`
yields `[]` on a missing, unreadable, or malformed (including empty) snapshot
file, and `get_crons` yields `[]` on a missing, unreadable, or malformed cron
file. -/
theorem loaders_default_on_failure :
    get_sessions .missing = [] ∧ get_sessions .unreadable = []
    ∧ get_sessions .malformed = []
    ∧ get_crons .missing = [] ∧ get_crons .unreadable = []
    ∧ get_crons .malformed = [] :=
  ⟨rfl, rfl, rfl, rfl, rfl, rfl⟩

/-- **C3** (counterexample): with 8 cost-positive records on 8 distinct days,
the per-day mapping returned by `get_costs` (truncated to 7 entries) sums to
7 while the returned all-time total is 8 — the rollup round-trip fails on
the returned mapping. -/
theorem costs_rollup_counterexample :
    ((get_costs costRecords8 "2024-01-08" "2024-01-01").per_day.map
        (fun p => p.2)).sum ≠
      (get_costs costRecords8 "2024-01-08" "2024-01-01").total
    ∧ ∀ r ∈ costRecords8, 0 < r.usage.costTotal := by
  constructor
  · have h7 : ((get_costs costRecords8 "2024-01-08" "2024-01-01").per_day.map
        (fun p => p.2)).sum = 7 := by with_unfolding_all rfl
    have h8 : (get_costs costRecords8 "2024-01-08" "2024-01-01").total = 8 := by
      with_unfolding_all rfl
    rw [h7, h8]; norm_num
  · decide

/-- **C3** (amended): the rollup round-trip holds before truncation: the
untruncated per-day map accumulated by `get_costs` sums exactly to the
all-time total; cost ≤ 0 records are excluded from all accumulators; and the
returned per-day mapping sums to the returned total whenever at most 7
distinct days occur. -/
theorem costs_rollup_amended (records : List Record) (todayStr weekAgoStr : String) :
    ((costAccOf records).per_day.map (fun p => p.2)).sum = (costAccOf records).total
    ∧ (∀ (acc : CostAcc) (r : Record), r.usage.costTotal ≤ 0 → stepCost acc r = acc)
    ∧ ((costAccOf records).per_day.length ≤ 7 →
        ((get_costs records todayStr weekAgoStr).per_day.map (fun p => p.2)).sum
          = (get_costs records todayStr weekAgoStr).total) := by
  have hMain : ((costAccOf records).per_day.map (fun p => p.2)).sum
      = (costAccOf records).total := by
    have h := costAcc_day_total records ⟨[], [], 0⟩
    simp only [List.map_nil, List.sum_nil] at h
    simp only [costAccOf]
    linarith [h]
  refine ⟨hMain, ?_, ?_⟩
  · intro acc r h
    by_cases h1 : r.type ≠ "message"
    · simp [stepCost, h1]
    · simp [stepCost, h1, h]
  · intro hlen
    have hsort : (get_costs records todayStr weekAgoStr).per_day
        = List.insertionSort dayDesc (costAccOf records).per_day := by
      show (List.insertionSort dayDesc (costAccOf records).per_day).take 7 = _
      apply List.take_of_length_le
      rw [List.length_insertionSort]
      exact hlen
    rw [hsort]
    have hperm := (List.perm_insertionSort dayDesc (costAccOf records).per_day).map
      (fun p : String × ℚ => p.2)
    rw [hperm.sum_eq, hMain]
    rfl

/-- Witness for C3 (amended): a zero-cost record leaves the accumulators
unchanged, and on a one-day log the returned per-day map sums to the
returned total. -/
theorem costs_rollup_amended_witness :
    stepCost ⟨[], [], 0⟩ zeroCostRec = ⟨[], [], 0⟩
    ∧ ((get_costs [costRec "2024-01-01"] "2024-01-01" "2023-12-25").per_day.map
        (fun p => p.2)).sum
      = (get_costs [costRec "2024-01-01"] "2024-01-01" "2023-12-25").total := by
  constructor
  · exact (costs_rollup_amended [] "x" "x").2.1 ⟨[], [], 0⟩ zeroCostRec (by decide)
  · exact (costs_rollup_amended [costRec "2024-01-01"] "2024-01-01" "2023-12-25").2.2
      (by with_unfolding_all decide)

/-- **C10**: the mapping returned by `get_costs` has at most 7 per-day
entries, sorted by day key descending, and every day key left out of the
returned mapping is lexicographically `≤` every retained day key (the latest
7 survive); at most 5 per-model entries, sorted by cost descending, every
excluded model's cost `≤` every retained model's cost (the 5 costliest
survive); while the returned total accumulates every qualifying
cost-positive record regardless of the truncation. -/
theorem costs_truncation_shape (records : List Record) (todayStr weekAgoStr : String) :
    (get_costs records todayStr weekAgoStr).per_day.length ≤ 7
    ∧ (get_costs records todayStr weekAgoStr).per_model.length ≤ 5
    ∧ List.Sorted dayDesc (get_costs records todayStr weekAgoStr).per_day
    ∧ List.Sorted costDesc (get_costs records todayStr weekAgoStr).per_model
    ∧ (∀ p ∈ (costAccOf records).per_day,
        p ∉ (get_costs records todayStr weekAgoStr).per_day →
        ∀ q ∈ (get_costs records todayStr weekAgoStr).per_day,
          pyStrLe p.1 q.1 = true)
    ∧ (∀ p ∈ (costAccOf records).per_model,
        p ∉ (get_costs records todayStr weekAgoStr).per_model →
        ∀ q ∈ (get_costs records todayStr weekAgoStr).per_model, p.2 ≤ q.2)
    ∧ (get_costs records todayStr weekAgoStr).total
        = ((records.filter qualCost).map (fun r => r.usage.costTotal)).sum := by
  refine ⟨?_, ?_, ?_, ?_, ?_, ?_, ?_⟩
  · show ((List.insertionSort dayDesc (costAccOf records).per_day).take 7).length ≤ 7
    rw [List.length_take]
    exact min_le_left _ _
  · show ((List.insertionSort costDesc (costAccOf records).per_model).take 5).length ≤ 5
    rw [List.length_take]
    exact min_le_left _ _
  · show List.Sorted dayDesc ((List.insertionSort dayDesc (costAccOf records).per_day).take 7)
    exact List.Pairwise.sublist (List.take_sublist _ _)
      (sorted_insertionSort_of _ dayDesc dayDesc_total dayDesc_trans _)
  · show List.Sorted costDesc
      ((List.insertionSort costDesc (costAccOf records).per_model).take 5)
    exact List.Pairwise.sublist (List.take_sublist _ _)
      (sorted_insertionSort_of _ costDesc costDesc_total costDesc_trans _)
  · intro p hp hnp q hq
    exact insertionSort_take_le dayDesc_total dayDesc_trans
      (costAccOf records).per_day 7 p hp hnp q hq
  · intro p hp hnp q hq
    exact insertionSort_take_le costDesc_total costDesc_trans
      (costAccOf records).per_model 5 p hp hnp q hq
  · show (costAccOf records).total = _
    have h := costAcc_total records ⟨[], [], 0⟩
    simpa [costAccOf] using h

theorem sparkIdx_nonneg_bounds (v : ℚ) (hv : 0 ≤ v) :
    0 ≤ sparkIdx v ∧ sparkIdx v ≤ 7 ∧ sparkIdx v = min ⌊v * (7.99 : ℚ)⌋ 7 := by
  have hq : 0 ≤ v * (7.99 : ℚ) := by positivity
  have hpy : pyInt (v * (7.99 : ℚ)) = ⌊v * (7.99 : ℚ)⌋ := by
    rw [pyInt, if_neg (not_lt.mpr hq)]
  refine ⟨?_, ?_, by rw [sparkIdx, hpy]⟩
  · rw [sparkIdx, hpy]
    have h0 : (0:ℤ) ≤ ⌊v * (7.99 : ℚ)⌋ := Int.floor_nonneg.mpr hq
    omega
  · rw [sparkIdx]
    exact min_le_right _ _

theorem sparkChar_nonneg (chars : List Char) (h8 : chars.length = 8) (v : ℚ)
    (hv : 0 ≤ v) :
    sparkChar chars v = chars[(sparkIdx v).toNat]?
      ∧ ∃ c, sparkChar chars v = some c := by
  obtain ⟨h0, h7, _⟩ := sparkIdx_nonneg_bounds v hv
  have heq : sparkChar chars v = chars[(sparkIdx v).toNat]? := by
    rw [sparkChar, pyIndex, if_pos h0]
  refine ⟨heq, ?_⟩
  rw [heq]
  have hlt : (sparkIdx v).toNat < chars.length := by omega
  exact ⟨_, List.getElem?_eq_getElem hlt⟩

theorem seqChars_total (chars : List Char) (h8 : chars.length = 8) :
    ∀ l : List ℚ, (∀ x ∈ l, 0 ≤ x) →
      ∃ cs, seqChars chars l = some cs ∧ cs.length = l.length
        ∧ ∀ v, l.getLast? = some v → cs.getLast? = sparkChar chars v := by
  intro l
  induction l with
  | nil =>
    intro _
    refine ⟨[], rfl, rfl, ?_⟩
    intro v hv
    simp at hv
  | cons a t ih =>
    intro hpos
    obtain ⟨c, hc⟩ := (sparkChar_nonneg chars h8 a (hpos a (List.mem_cons_self a t))).2
    obtain ⟨cs, hcs, hlen, hlast⟩ := ih (fun x hx => hpos x (List.mem_cons_of_mem a hx))
    refine ⟨c :: cs, ?_, by simp [hlen], ?_⟩
    · simp only [seqChars, hc, hcs]
    · intro v hv
      cases t with
      | nil =>
        have hva : a = v := by simpa using hv
        have hcs0 : cs = [] := List.length_eq_zero.mp (by simpa using hlen)
        subst hcs0
        rw [List.getLast?_singleton, ← hva]
        exact hc.symm
      | cons b u =>
        have hcsne : cs ≠ [] := by
          intro h0
          rw [h0] at hlen
          simp at hlen
        rw [List.getLast?_cons_cons] at hv
        have hstep : (c :: cs).getLast? = cs.getLast? := by
          cases cs with
          | nil => exact absurd rfl hcsne
          | cons d ds => rw [List.getLast?_cons_cons]
        rw [hstep]
        exact hlast v hv

theorem pySliceLast_getLast (l : List ℚ) (w : Nat) (hw : 0 < w) (hne : l ≠ []) :
    pySliceLast l w ≠ [] ∧ (pySliceLast l w).getLast? = l.getLast? := by
  rw [pySliceLast, if_neg (by omega)]
  have hl0 : l.length ≠ 0 := fun h => hne (List.length_eq_zero.mp h)
  have hne2 : l.drop (l.length - w) ≠ [] := by
    intro h0
    have hlen := List.length_drop (l.length - w) l
    rw [h0] at hlen
    simp at hlen
    omega
  refine ⟨hne2, ?_⟩
  conv_rhs => rw [← List.take_append_drop (l.length - w) l]
  exact (List.getLast?_append_of_ne_nil _ hne2).symm

/-- **C5** (counterexample): for the single value -200 with scale maximum 100
and width 1, the normalized value -2 maps to index `min(int(-15.98), 7) =
-15`, and `chars[-15]` on the 8-glyph ramp raises `IndexError` — the
function returns no row at all, not `width` symbols. -/
theorem sparkline_width_counterexample :
    make_sparkline [-200] 1 100 true = none := by
  with_unfolding_all rfl

/-- **C5** (amended): for every list of *nonnegative* values (all the
dashboard's series are nonnegative), every positive width and every positive
scale maximum, `make_sparkline` returns exactly `width` symbols — input
shorter than `width` is padded on the left with zero-valued slots, longer
input is cut to the most recent `width` values — and the rightmost symbol is
the glyph of the most recent (last) value. -/
theorem sparkline_width_and_last (values : List ℚ) (width : Nat) (max_cap : ℚ)
    (ascii_mode : Bool) (hw : 0 < width) (hcap : 0 < max_cap)
    (hv : ∀ v ∈ values, 0 ≤ v) :
    ∃ cs, make_sparkline values width max_cap ascii_mode = some cs
      ∧ cs.length = width
      ∧ ∀ last, values.getLast? = some last →
          cs.getLast? =
            sparkChar (if ascii_mode then sparkCharsAscii else sparkCharsUnicode)
              (min (last / max_cap) 1) := by
  by_cases hne : values = []
  · subst hne
    refine ⟨List.replicate width (if ascii_mode then '_' else '▁'), ?_, ?_, ?_⟩
    · rw [make_sparkline, if_pos rfl]
    · exact List.length_replicate _ _
    · intro last hlast
      simp at hlast
  · have h8 : (if ascii_mode then sparkCharsAscii else sparkCharsUnicode).length = 8 := by
      cases ascii_mode <;> rfl
    have hms : make_sparkline values width max_cap ascii_mode
        = seqChars (if ascii_mode then sparkCharsAscii else sparkCharsUnicode)
            (if ((pySliceLast values width).map (fun v => min (v / max_cap) 1)).length < width
              then List.replicate
                  (width - ((pySliceLast values width).map (fun v => min (v / max_cap) 1)).length)
                  (0 : ℚ)
                ++ (pySliceLast values width).map (fun v => min (v / max_cap) 1)
              else (pySliceLast values width).map (fun v => min (v / max_cap) 1)) := by
      rw [make_sparkline, if_neg hne]
    have hnormpos : ∀ x ∈ (pySliceLast values width).map (fun v => min (v / max_cap) 1), 0 ≤ x := by
      intro x hx
      obtain ⟨v, hvmem, rfl⟩ := List.mem_map.mp hx
      have hv0 : 0 ≤ v := by
        apply hv v
        rw [pySliceLast, if_neg (by omega)] at hvmem
        exact List.mem_of_mem_drop hvmem
      exact le_min (div_nonneg hv0 hcap.le) (by norm_num)
    have hposall : ∀ x ∈ (if ((pySliceLast values width).map (fun v => min (v / max_cap) 1)).length < width
        then List.replicate
            (width - ((pySliceLast values width).map (fun v => min (v / max_cap) 1)).length) (0 : ℚ)
          ++ (pySliceLast values width).map (fun v => min (v / max_cap) 1)
        else (pySliceLast values width).map (fun v => min (v / max_cap) 1)), 0 ≤ x := by
      intro x hx
      split_ifs at hx with hcase
      · rcases List.mem_append.mp hx with h | h
        · rw [List.eq_of_mem_replicate h]
        · exact hnormpos x h
      · exact hnormpos x hx
    obtain ⟨cs, hcs, hcslen, hcslast⟩ :=
      seqChars_total (if ascii_mode then sparkCharsAscii else sparkCharsUnicode) h8 _ hposall
    have hreclen : (pySliceLast values width).length = values.length - (values.length - width) := by
      rw [pySliceLast, if_neg (by omega)]
      exact List.length_drop _ _
    have hl0 : values.length ≠ 0 := fun h => hne (List.length_eq_zero.mp h)
    have hplen : cs.length = width := by
      rw [hcslen]
      split_ifs with hcase
      · rw [List.length_append, List.length_replicate]; omega
      · rw [List.length_map] at hcase ⊢
        omega
    refine ⟨cs, by rw [hms, hcs], hplen, ?_⟩
    intro last hlast
    obtain ⟨hrne, hrlast⟩ := pySliceLast_getLast values width hw hne
    have hnne : (pySliceLast values width).map (fun v => min (v / max_cap) 1) ≠ [] := by
      simpa using hrne
    have hnlast : ((pySliceLast values width).map (fun v => min (v / max_cap) 1)).getLast?
        = some (min (last / max_cap) 1) := by
      rw [List.getLast?_map, hrlast, hlast]
      rfl
    apply hcslast
    split_ifs with hcase
    · rw [List.getLast?_append_of_ne_nil _ hnne]
      exact hnlast
    · exact hnlast

/-- Witness for C5: a two-value series rendered at width 3. -/
theorem sparkline_width_and_last_witness :
    ∃ cs, make_sparkline [50, 75] 3 100 true = some cs
      ∧ cs.length = 3
      ∧ ∀ last, ([50, 75] : List ℚ).getLast? = some last →
          cs.getLast? =
            sparkChar (if true then sparkCharsAscii else sparkCharsUnicode)
              (min (last / 100) 1) :=
  sparkline_width_and_last [50, 75] 3 100 true (by norm_num) (by norm_num)
    (by intro v hv; fin_cases hv <;> norm_num)

theorem make_sparkline_singleton (v max_cap : ℚ) (ascii_mode : Bool) :
    make_sparkline [v] 1 max_cap ascii_mode
      = seqChars (if ascii_mode then sparkCharsAscii else sparkCharsUnicode)
          [min (v / max_cap) 1] := by
  rw [make_sparkline, if_neg (by simp)]
  rfl

/-- **C7** (counterexample): the code quantizes with `7.99`, not the `7.999`
the claim states. At normalized value `n = 0.1251` (e.g. value 1251 at scale
maximum 10000) the code picks level `min(int(0.1251 * 7.99), 7) = 0` and
renders the level-0 glyph, while `floor(n * 7.999) = 1` would select the
level-1 glyph. -/
theorem sparkline_level_counterexample :
    sparkIdx (min ((1251 : ℚ) / 10000) 1) = 0
    ∧ sparkIdxSpec (min ((1251 : ℚ) / 10000) 1) = 1
    ∧ make_sparkline [1251] 1 10000 true = some ['_']
    ∧ sparkCharsAscii[(1 : Nat)]? = some '.' :=
  ⟨by with_unfolding_all rfl, by with_unfolding_all rfl,
   by with_unfolding_all rfl, rfl⟩

/-- **C7** (amended): for a nonnegative value and positive scale maximum, the
glyph level is `min(floor(n * 7.99), 7)` (the source's constant is 7.99, not
7.999) where `n = min(v / scaleMax, 1)`; the level is one of the 8 discrete
levels 0..7; and the glyph rendered is the level-indexed symbol of the
ASCII-safe ramp in ASCII mode and of the Unicode block ramp otherwise. -/
theorem sparkline_level_amended (v max_cap : ℚ) (hv : 0 ≤ v) (hcap : 0 < max_cap) :
    sparkIdx (min (v / max_cap) 1) = min ⌊min (v / max_cap) 1 * (7.99 : ℚ)⌋ 7
    ∧ 0 ≤ sparkIdx (min (v / max_cap) 1)
    ∧ sparkIdx (min (v / max_cap) 1) ≤ 7
    ∧ make_sparkline [v] 1 max_cap true
        = some [sparkCharsAscii.getD (sparkIdx (min (v / max_cap) 1)).toNat ' ']
    ∧ make_sparkline [v] 1 max_cap false
        = some [sparkCharsUnicode.getD (sparkIdx (min (v / max_cap) 1)).toNat ' '] := by
  have hn : 0 ≤ min (v / max_cap) 1 := le_min (div_nonneg hv hcap.le) (by norm_num)
  obtain ⟨h0, h7, hformula⟩ := sparkIdx_nonneg_bounds (min (v / max_cap) 1) hn
  refine ⟨hformula, h0, h7, ?_, ?_⟩
  · obtain ⟨heq, hex⟩ := sparkChar_nonneg sparkCharsAscii rfl (min (v / max_cap) 1) hn
    obtain ⟨c, hc⟩ := hex
    have hgd : sparkCharsAscii.getD (sparkIdx (min (v / max_cap) 1)).toNat ' ' = c := by
      rw [List.getD_eq_getElem?_getD, ← heq, hc]
      rfl
    rw [make_sparkline_singleton]
    show seqChars sparkCharsAscii [min (v / max_cap) 1] = _
    rw [hgd]
    simp only [seqChars, hc]
  · obtain ⟨heq, hex⟩ := sparkChar_nonneg sparkCharsUnicode rfl (min (v / max_cap) 1) hn
    obtain ⟨c, hc⟩ := hex
    have hgd : sparkCharsUnicode.getD (sparkIdx (min (v / max_cap) 1)).toNat ' ' = c := by
      rw [List.getD_eq_getElem?_getD, ← heq, hc]
      rfl
    rw [make_sparkline_singleton]
    show seqChars sparkCharsUnicode [min (v / max_cap) 1] = _
    rw [hgd]
    simp only [seqChars, hc]

/-- Witness for C7: a concrete glyph rendered through the amended level
formula. -/
theorem sparkline_level_amended_witness :
    make_sparkline [50] 1 100 true
      = some [sparkCharsAscii.getD (sparkIdx (min ((50 : ℚ) / 100) 1)).toNat ' '] :=
  (sparkline_level_amended 50 100 (by norm_num) (by norm_num)).2.2.2.1

/-- Witness for C10: on the 8-day log the returned per-day map keeps at most
7 entries, and the dropped day 2024-01-01 is lexicographically ≤ the
retained day 2024-01-08. -/
theorem costs_truncation_shape_witness :
    (get_costs costRecords8 "2024-01-08" "2024-01-01").per_day.length ≤ 7
    ∧ pyStrLe ("2024-01-01", (1 : ℚ)).1 ("2024-01-08", (1 : ℚ)).1 = true := by
  refine ⟨(costs_truncation_shape costRecords8 "2024-01-08" "2024-01-01").1, ?_⟩
  refine (costs_truncation_shape costRecords8 "2024-01-08" "2024-01-01").2.2.2.2.1
    ("2024-01-01", 1) ?_ ?_ ("2024-01-08", 1) ?_
  · with_unfolding_all decide
  · with_unfolding_all decide
  · with_unfolding_all decide
